import Mathlib

/-!
Verification of the compaction workflow of the anki-llm-assistant repository.

The embedding models the code of `app/services/anki.py`,
`app/services/compaction.py` (whose compaction methods are duplicated
line-for-line in `app/services/logic.py`), `app/services/llm.py` and the
HTTP dependency wiring of `app/routers/ops.py`.

The external RemoteNoteStore (AnkiConnect) is modelled as an in-memory
association list of notes; remote write failures (HTTP errors raised by
`AnkiConnectClient.rpc` and caught by the service code) are modelled by a
boolean oracle deciding, per note and per kind of write, whether the remote
call succeeds.  A failed remote call leaves the store unchanged.

The external TextTransformer (OpenAI chat completion inside
`LLMService.compact_sentence`) is modelled as an oracle mapping
(target word, sentence, attempt index) to the returned text.
-/

namespace AnkiAssist

/-- A note of the remote store: the deck it belongs to, its named fields
(association list field name to value) and its tags
(mirrors the `notesInfo` record shape used by the services). -/
structure Note where
  deck : String
  fields : List (String × String)
  tags : List String
deriving DecidableEq

/-- The remote note store: note id to note record. -/
abbrev Store := List (Nat × Note)

/-- A preview diff as built by `compact_examples`
(`app/models/schemas.py`, class PreviewDiff). -/
structure PreviewDiff where
  note_id : Nat
  word : String
  old : String
  new : String
deriving DecidableEq

/-- The data stored under a confirmation token
(`self.confirm_tokens[confirm_token] = {...}` in `compact_examples`). -/
structure TokenData where
  deck : String
  field : String
  note_ids : List Nat
  diffs : List PreviewDiff
deriving DecidableEq

/-- Summary returned by `apply_compaction` (schemas.ApplySummary). -/
structure ApplySummary where
  updated : Nat
  skipped : Nat
  tagged : Nat
deriving DecidableEq

/-- Response of `rollback_compacted` (schemas.RollbackResponse). -/
structure RollbackResponse where
  restored : Nat
  untagged : Nat
deriving DecidableEq

/-- Response of `compact_examples` (schemas.CompactPreviewResponse). -/
structure CompactPreviewResponse where
  count : Nat
  diffs : List PreviewDiff
  needs_confirmation : Bool
  confirm_token : Option String
deriving DecidableEq

/-- The per-service token registry `self.confirm_tokens`
(a Python dict, modelled as an association list with distinct keys). -/
abbrev TokenStore := List (String × TokenData)

/-- Kinds of remote writes performed by the workflow; used to index the
write-failure oracle. -/
inductive WStep where
  | backupW
  | contentW
  | tagW
  | restoreW
  | untagW
deriving DecidableEq

/-- Write oracle: whether the remote call of the given kind on the given
note succeeds (models HTTP/AnkiConnect errors raised by `rpc`). -/
abbrev WOracle := Nat → WStep → Bool

/-- The fixed marker tag `"compact_examples"` used by apply and rollback. -/
def markerTag : String := "compact_examples"

/-- Lookup in an association list of fields (Python dict access). -/
def fLookup : List (String × String) → String → Option String
  | [], _ => none
  | (a, b) :: t, f => if f = a then some b else fLookup t f

/-- Field lookup on a note (`fields[name]["value"]`). -/
def getField (n : Note) (f : String) : Option String :=
  fLookup n.fields f

/-- Write one field of a note (effect of `updateNoteFields` on the record);
replaces the value when the field exists, adds the field otherwise. -/
def setField (n : Note) (f v : String) : Note :=
  if (fLookup n.fields f).isSome then
    { n with fields := n.fields.map (fun p => if p.1 = f then (f, v) else p) }
  else
    { n with fields := n.fields ++ [(f, v)] }

/-- Add a tag to a note (effect of `addTags`); AnkiConnect tag sets do not
duplicate an already present tag. -/
def addTagToNote (n : Note) (t : String) : Note :=
  if n.tags.contains t then n else { n with tags := n.tags ++ [t] }

/-- Remove a tag from a note (effect of `removeTags`). -/
def removeTagFromNote (n : Note) (t : String) : Note :=
  { n with tags := n.tags.filter (fun x => x ≠ t) }

/-- Look a note up by id (the `notesInfo` fetch of a single id). -/
def lookupNote : Store → Nat → Option Note
  | [], _ => none
  | (k, n) :: t, m => if m = k then some n else lookupNote t m

/-- Apply a per-note transformation to the entry of one note id. -/
def modifyNote (s : Store) (nid : Nat) (f : Note → Note) : Store :=
  s.map (fun p => if p.1 = nid then (p.1, f p.2) else p)

/-- Effect of a successful `updateNoteFields` call writing one field. -/
def setNoteField (s : Store) (nid : Nat) (f v : String) : Store :=
  modifyNote s nid (fun n => setField n f v)

/-- Value of one field of one note of the store. -/
def getNoteField (s : Store) (nid : Nat) (f : String) : Option String :=
  (lookupNote s nid).bind (fun n => getField n f)

/-- Keys (note ids) of the store. -/
def keys (s : Store) : List Nat := s.map Prod.fst

/-- Well-formedness of the store: note ids are distinct. -/
def keysNodup (s : Store) : Prop := (keys s).Nodup

/-- Structured queries built by the client
(`AnkiConnectClient.build_query` and `build_rollback_query`):
the compaction query selects notes of the deck whose field is non-empty
(`field:*`) and which lack the marker tag (`-tag:compact_examples`);
the rollback query selects notes of the deck carrying the marker tag and
possessing the backup field (`tag:compact_examples has:field:F_Original`). -/
inductive NoteQuery where
  | compactionQ (deck field : String)
  | rollbackQ (deck bfield : String)
deriving DecidableEq

/-- Whether a note matches a query; semantics of the external
RemoteNoteStore executing the structured query (spec section 4.4). -/
def matchesQ : NoteQuery → Note → Bool
  | .compactionQ deck field, n =>
      n.deck == deck && !((getField n field).getD "" == "")
        && !(n.tags.contains markerTag)
  | .rollbackQ deck bfield, n =>
      n.deck == deck && n.tags.contains markerTag
        && (getField n bfield).isSome

/-- Result of `findNotes` for a structured query: the ids of the matching
notes, in store order. -/
def runQuery (s : Store) (q : NoteQuery) : List Nat :=
  (s.filter (fun p => matchesQ q p.2)).map Prod.fst

/-- Result of `notesInfo`: the records of the requested ids that exist. -/
def notes_info_run (s : Store) (ids : List Nat) : List (Nat × Note) :=
  ids.filterMap (fun i => (lookupNote s i).map (fun n => (i, n)))

/-- The token lookup `confirm_token in self.confirm_tokens` /
`self.confirm_tokens[confirm_token]`. -/
def lookupTok : TokenStore → String → Option TokenData
  | [], _ => none
  | (k, v) :: t, tok => if tok = k then some v else lookupTok t tok

/-- The token deletion `del self.confirm_tokens[confirm_token]`. -/
def removeToken (ts : TokenStore) (tok : String) : TokenStore :=
  ts.filter (fun p => !(p.1 == tok))

/-- Embedding of `AnkiConnectClient.backup_field`: fetch the note; fail
when the note is missing, the source field is absent or empty, or the
remote backup write errors (the method catches the exception and returns
False); otherwise write the pre-mutation value into the backup field. -/
def backup_field (wora : WOracle) (s : Store) (nid : Nat)
    (field bfield : String) : Bool × Store :=
  match lookupNote s nid with
  | none => (false, s)
  | some n =>
    match getField n field with
    | none => (false, s)
    | some v =>
      if v == "" then (false, s)
      else if wora nid WStep.backupW then (true, setNoteField s nid bfield v)
      else (false, s)

/-- One iteration of the per-diff loop of
`CompactionService.apply_compaction`: back the field up, then write the
compacted content, then add the marker tag; a failed backup or a raised
remote error is caught and the note only counts as skipped (`false`). -/
def applyEdit (wora : WOracle) (field : String) (s : Store)
    (d : PreviewDiff) : Store × Bool :=
  let bfield := field ++ "_Original"
  let r := backup_field wora s d.note_id field bfield
  if !r.1 then (r.2, false)
  else if !(wora d.note_id WStep.contentW) then (r.2, false)
  else
    let s2 := setNoteField r.2 d.note_id field d.new
    if !(wora d.note_id WStep.tagW) then (s2, false)
    else (modifyNote s2 d.note_id (fun n => addTagToNote n markerTag), true)

/-- The per-diff loop of `apply_compaction`: returns the final store and
the counters (updated, skipped, tagged). -/
def applyLoop (wora : WOracle) (field : String) :
    Store → List PreviewDiff → Store × Nat × Nat × Nat
  | s, [] => (s, 0, 0, 0)
  | s, d :: rest =>
    let r := applyEdit wora field s d
    let rec' := applyLoop wora field r.1 rest
    if r.2 then (rec'.1, rec'.2.1 + 1, rec'.2.2.1, rec'.2.2.2 + 1)
    else (rec'.1, rec'.2.1, rec'.2.2.1 + 1, rec'.2.2.2)

/-- Embedding of `CompactionService.apply_compaction` (identical to
`LogicService.apply_compaction`): an unknown token raises
`"Invalid confirmation token"` before any state is touched; a known token
runs the per-diff loop, then deletes the token unconditionally and
returns the summary.  The result carries the outcome, the token registry
and the note store after the call. -/
def apply_compaction (wora : WOracle) (tokens : TokenStore) (s : Store)
    (tok : String) : Except String ApplySummary × TokenStore × Store :=
  match lookupTok tokens tok with
  | none => (Except.error "Invalid confirmation token", tokens, s)
  | some td =>
    let r := applyLoop wora td.field s td.diffs
    (Except.ok ⟨r.2.1, r.2.2.1, r.2.2.2⟩, removeToken tokens tok, r.1)

/-- One iteration of the per-note loop of
`CompactionService.rollback_compacted`: fetch the note; when the note is
missing or the backup field is absent or empty, continue without counting;
otherwise restore the backup value into the primary field and remove the
marker tag.  A raised remote error is caught; the note then counts for
neither `restored` nor `untagged` (`false`). -/
def rollback_note (wora : WOracle) (field : String) (s : Store)
    (nid : Nat) : Store × Bool :=
  match lookupNote s nid with
  | none => (s, false)
  | some n =>
    match getField n (field ++ "_Original") with
    | none => (s, false)
    | some bv =>
      if bv == "" then (s, false)
      else if !(wora nid WStep.restoreW) then (s, false)
      else
        let s1 := setNoteField s nid field bv
        if !(wora nid WStep.untagW) then (s1, false)
        else (modifyNote s1 nid (fun n => removeTagFromNote n markerTag), true)

/-- The per-note loop of `rollback_compacted`: returns the final store and
the counters (restored, untagged). -/
def rollbackLoop (wora : WOracle) (field : String) :
    Store → List Nat → Store × Nat × Nat
  | s, [] => (s, 0, 0)
  | s, nid :: rest =>
    let r := rollback_note wora field s nid
    let rec' := rollbackLoop wora field r.1 rest
    if r.2 then (rec'.1, rec'.2.1 + 1, rec'.2.2 + 1)
    else (rec'.1, rec'.2.1, rec'.2.2)

/-- Embedding of `CompactionService.rollback_compacted` (identical to
`LogicService.rollback_compacted`): find the rollback candidates via
`find_notes_for_rollback`, return `{restored: 0, untagged: 0}` when there
are none, otherwise run the per-note loop. -/
def rollback_compacted (wora : WOracle) (s : Store) (deck field : String) :
    RollbackResponse × Store :=
  let ids := runQuery s (NoteQuery.rollbackQ deck (field ++ "_Original"))
  if ids.isEmpty then (⟨0, 0⟩, s)
  else
    let r := rollbackLoop wora field s ids
    (⟨r.2.1, r.2.2⟩, r.1)

/-- Character-list version of Python string containment: whether the first
list occurs as a contiguous block at the head of the second. -/
def chPrefixOf : List Char → List Char → Bool
  | [], _ => true
  | _ :: _, [] => false
  | x :: xs, y :: ys => x == y && chPrefixOf xs ys

/-- Whether the first list occurs as a contiguous block anywhere inside
the second (Python `in` on strings). -/
def chInfixOf (a : List Char) : List Char → Bool
  | [] => chPrefixOf a []
  | y :: ys => chPrefixOf a (y :: ys) || chInfixOf a ys

/-- The headword-presence check of `LLMService.compact_sentence`:
`target_word.lower() in compacted.lower()` — case-insensitive substring
containment. -/
def containsCI (needle hay : String) : Bool :=
  chInfixOf (needle.data.map Char.toLower) (hay.data.map Char.toLower)

/-- Transformer oracle: the text returned by the external TextTransformer
for a given target word, input sentence and attempt index (0 = first
prompt, 1 = the more directive retry prompt). -/
abbrev TOracle := String → String → Nat → String

/-- Events of the rewrite loop: a transformer call or an enforced delay
(`asyncio.sleep(rate_limit_ms / 1000)`). -/
inductive Ev where
  | callE (target sentence : String) (attempt : Nat)
  | sleepE (ms : Nat)
deriving DecidableEq

/-- Whether an event is a transformer call. -/
def Ev.isCall : Ev → Bool
  | .callE _ _ _ => true
  | .sleepE _ => false

/-- Embedding of `LLMService.compact_sentence`: issue the first transformer
call; when its result fails the headword-presence check, issue exactly one
retry with the more directive prompt; when the retry result also lacks the
headword, raise (`none`).  Also returns the sequence of transformer calls
made. -/
def compact_sentence (tora : TOracle) (target sentence : String) :
    Option String × List Ev :=
  let r1 := tora target sentence 0
  if containsCI target r1 then (some r1, [Ev.callE target sentence 0])
  else
    let r2 := tora target sentence 1
    if containsCI target r2 then
      (some r2, [Ev.callE target sentence 0, Ev.callE target sentence 1])
    else (none, [Ev.callE target sentence 0, Ev.callE target sentence 1])

/-- One entry of `sentences_data` built by `compact_examples`. -/
structure SentenceData where
  note_id : Nat
  target : String
  sentence : String
deriving DecidableEq

/-- One entry of the result list of
`LLMService.compact_multiple_sentences`. -/
structure CompactResult where
  note_id : Nat
  target : String
  original : String
  compacted : Option String
  success : Bool
deriving DecidableEq

/-- Embedding of `LLMService.compact_multiple_sentences`: rewrite the
sentences strictly one at a time, in order; after a successful rewrite
that is not the last item, sleep `rate_limit_ms`; a failed rewrite is
caught, recorded with `success = False`, and — the sleep statement sitting
inside the `try` block after the success path — no sleep is performed
before the next call.  Returns the result list and the event trace. -/
def compact_multiple_sentences (tora : TOracle) (rate_limit_ms : Nat) :
    List SentenceData → List CompactResult × List Ev
  | [] => ([], [])
  | d :: rest =>
    let r := compact_sentence tora d.target d.sentence
    let tail := compact_multiple_sentences tora rate_limit_ms rest
    match r.1 with
    | some c =>
      let sleeps := if rest.isEmpty then [] else [Ev.sleepE rate_limit_ms]
      (⟨d.note_id, d.target, d.sentence, some c, true⟩ :: tail.1,
       r.2 ++ sleeps ++ tail.2)
    | none =>
      (⟨d.note_id, d.target, d.sentence, none, false⟩ :: tail.1,
       r.2 ++ tail.2)

/-- Embedding of `AnkiConnectClient.extract_headword`: first field of the
priority list `["Word", "Lemma", "Target", "Headword"]` holding a
non-empty value, stripped. -/
def extract_headword (n : Note) : Option String :=
  ["Word", "Lemma", "Target", "Headword"].findSome? (fun f =>
    match getField n f with
    | some v => if v == "" then none else some v.trim
    | none => none)

/-- Remote-store actions performed through `AnkiConnectClient`; collected
as a trace to state frame properties of the read-only code paths. -/
inductive RpcAction where
  | findNotesA (q : NoteQuery)
  | notesInfoA (ids : List Nat)
  | updateNoteFieldsA (nid : Nat) (fields : List (String × String))
  | addTagsA (ids : List Nat) (tag : String)
  | removeTagsA (ids : List Nat) (tag : String)
deriving DecidableEq

/-- Whether an action mutates the remote store. -/
def RpcAction.isWrite : RpcAction → Bool
  | .updateNoteFieldsA _ _ => true
  | .addTagsA _ _ => true
  | .removeTagsA _ _ => true
  | _ => false

/-- Effect of a successful action on the store (reads leave it intact). -/
def applyAction (s : Store) : RpcAction → Store
  | .updateNoteFieldsA nid fs =>
      fs.foldl (fun st p => setNoteField st nid p.1 p.2) s
  | .addTagsA ids t =>
      ids.foldl (fun st i => modifyNote st i (fun n => addTagToNote n t)) s
  | .removeTagsA ids t =>
      ids.foldl (fun st i => modifyNote st i (fun n => removeTagFromNote n t)) s
  | _ => s

/-- Embedding of `CompactionService.compact_examples` (identical to
`LogicService.compact_examples`): find candidates (deck, non-empty field,
no marker tag), truncate to `limit`, fetch full records, keep notes with a
resolvable headword and a non-empty source field, rewrite them through the
transformer, build diffs from the successful rewrites, and — only when
`dry_run` is false and at least one diff exists — mint the fresh token
`freshTok` (the `secrets.token_urlsafe(16)` value) and register the batch.
Returns the response, the token registry after the call, and the trace of
remote-store actions performed. -/
def compact_examples (tora : TOracle) (s : Store) (tokens : TokenStore)
    (deck field : String) (preview_count limit : Nat) (dry_run : Bool)
    (freshTok : String) :
    CompactPreviewResponse × TokenStore × List RpcAction :=
  let q := NoteQuery.compactionQ deck field
  let note_ids := runQuery s q
  if note_ids.isEmpty then
    (⟨0, [], false, none⟩, tokens, [RpcAction.findNotesA q])
  else
    let note_ids := note_ids.take limit
    let notes := notes_info_run s note_ids
    let sentences_data := notes.filterMap (fun p =>
      match extract_headword p.2 with
      | none => none
      | some hw =>
        if hw == "" then none
        else match getField p.2 field with
          | none => none
          | some v =>
            if v == "" then none
            else some (⟨p.1, hw, v⟩ : SentenceData))
    if sentences_data.isEmpty then
      (⟨0, [], false, none⟩, tokens,
       [RpcAction.findNotesA q, RpcAction.notesInfoA note_ids])
    else
      let results := compact_multiple_sentences tora 250 sentences_data
      let diffs := results.1.filterMap (fun r =>
        if r.success then
          some (⟨r.note_id, r.target, r.original, r.compacted.getD ""⟩ :
            PreviewDiff)
        else none)
      let minted := !dry_run && !diffs.isEmpty
      let tokens1 :=
        if minted then
          (freshTok,
            (⟨deck, field, diffs.map (fun d => d.note_id), diffs⟩ :
              TokenData)) :: tokens
        else tokens
      (⟨diffs.length, diffs.take preview_count, minted,
          if minted then some freshTok else none⟩,
       tokens1,
       [RpcAction.findNotesA q, RpcAction.notesInfoA note_ids])

/-- Embedding of `get_logic_service` in `app/routers/ops.py` (and the
identical dependency in `app/routers/chat.py`): every request constructs a
fresh `LogicService()`, whose `__init__` sets `self.confirm_tokens = {}`,
so the handler starts from an empty token registry. -/
def get_logic_service : TokenStore := []

/-- Embedding of the `POST /ops/compact/apply` handler: it obtains its
`LogicService` through the per-request dependency and calls
`apply_compaction` on that fresh instance. -/
def ops_compact_apply (wora : WOracle) (s : Store) (tok : String) :
    Except String ApplySummary × Store :=
  let tokens := get_logic_service
  let r := apply_compaction wora tokens s tok
  (r.1, r.2.2)

/-- Condition under which the per-note rollback loop hits a `continue`
(note missing from `notesInfo`, backup field absent, or backup value
empty): the note is passed over without any write or count. -/
def rbContinue (field : String) (s : Store) (nid : Nat) : Bool :=
  match lookupNote s nid with
  | none => true
  | some n =>
    match getField n (field ++ "_Original") with
    | none => true
    | some bv => bv == ""

/-- Effect of one rollback iteration on the processed note's own record
(used to characterize the loop; failure of a remote call leaves the
partially processed record). -/
def rbTransform (wora : WOracle) (field : String) (nid : Nat) :
    Option Note → Option Note
  | none => none
  | some n =>
    match getField n (field ++ "_Original") with
    | none => some n
    | some bv =>
      if bv == "" then some n
      else if !(wora nid WStep.restoreW) then some n
      else
        let n1 := setField n field bv
        if !(wora nid WStep.untagW) then some n1
        else some (removeTagFromNote n1 markerTag)

/-- Pacing predicate over an event trace: no two transformer calls are
adjacent, i.e. an enforced delay separates every pair of consecutive
calls. -/
def noAdjacentCalls : List Ev → Bool
  | [] => true
  | [_] => true
  | a :: b :: rest => !(a.isCall && b.isCall) && noAdjacentCalls (b :: rest)

/-- Sample note used to evaluate the theorems at concrete inputs. -/
def sampleNote : Note :=
  ⟨"D", [("Word", "cat"), ("Example", "long cat text")], []⟩

/-- Sample one-note store. -/
def sampleStore : Store := [(1, sampleNote)]

/-- Sample edit for the note of `sampleStore`. -/
def sampleDiff : PreviewDiff := ⟨1, "cat", "long cat text", "a cat"⟩

/-- Sample edit whose note id is absent from `sampleStore`. -/
def sampleDiffMissing : PreviewDiff := ⟨2, "dog", "x", "y"⟩

/-- Sample token data holding the batch of `sampleDiff`. -/
def sampleTd : TokenData := ⟨"D", "Example", [1], [sampleDiff]⟩

/-- Write oracle granting every remote write. -/
def allOK : WOracle := fun _ _ => true

/-- Sample already-compacted note, eligible for rollback. -/
def rbNote : Note :=
  ⟨"D", [("Example", "a cat"), ("Example_Original", "long cat text")],
    ["compact_examples"]⟩

/-- Sample store of one rollback-eligible note. -/
def rbStore : Store := [(1, rbNote)]

/-- Transformer oracle that answers every prompt with the target word. -/
def echoTarget : TOracle := fun t _ _ => t

/-- Two sample candidate sentences. -/
def twoData : List SentenceData := [⟨1, "cat", "x"⟩, ⟨2, "dog", "y"⟩]

theorem lookupTok_removeToken (ts : TokenStore) (tok : String) :
    lookupTok (removeToken ts tok) tok = none := by
  induction ts with
  | nil => rfl
  | cons p t ih =>
    rcases p with ⟨k, v⟩
    by_cases h : k = tok
    · have hb : (!((k, v).1 == tok)) = false := by simp [h]
      simp only [removeToken] at ih ⊢
      rw [List.filter_cons_of_neg (by simp [hb])]
      exact ih
    · have hb : (!((k, v).1 == tok)) = true := by simp [h]
      simp only [removeToken] at ih ⊢
      rw [List.filter_cons_of_pos (by simp [hb])]
      simp only [lookupTok]
      rw [if_neg (Ne.symm h)]
      exact ih

theorem applyLoop_counts (wora : WOracle) (field : String)
    (l : List PreviewDiff) : ∀ s : Store,
    (applyLoop wora field s l).2.1 + (applyLoop wora field s l).2.2.1
        = l.length ∧
    (applyLoop wora field s l).2.2.2 = (applyLoop wora field s l).2.1 := by
  induction l with
  | nil => intro s; exact ⟨rfl, rfl⟩
  | cons d rest ih =>
    intro s
    simp only [applyLoop]
    rcases ih (applyEdit wora field s d).1 with ⟨h1, h2⟩
    by_cases h : (applyEdit wora field s d).2
    · simp only [h, if_true, List.length_cons]
      omega
    · simp only [h, if_false, List.length_cons, Bool.false_eq_true]
      omega

theorem fLookup_map_setKey (l : List (String × String)) (f v : String)
    (h : (fLookup l f).isSome) :
    fLookup (l.map (fun p => if p.1 = f then (f, v) else p)) f = some v := by
  induction l with
  | nil => simp [fLookup] at h
  | cons p t ih =>
    rcases p with ⟨a, b⟩
    dsimp only [List.map]
    by_cases ha : a = f
    · subst ha
      rw [if_pos rfl]
      simp [fLookup]
    · rw [if_neg ha]
      rw [fLookup, if_neg (fun hh => ha hh.symm)] at h ⊢
      exact ih h

theorem fLookup_append_single (l : List (String × String)) (f v : String)
    (h : fLookup l f = none) :
    fLookup (l ++ [(f, v)]) f = some v := by
  induction l with
  | nil => simp [fLookup]
  | cons p t ih =>
    rcases p with ⟨a, b⟩
    by_cases ha : a = f
    · subst ha; rw [fLookup, if_pos rfl] at h; exact absurd h (by simp)
    · rw [fLookup, if_neg (fun hh => ha hh.symm)] at h
      rw [List.cons_append, fLookup, if_neg (fun hh => ha hh.symm)]
      exact ih h

theorem getField_setField_self (n : Note) (f v : String) :
    getField (setField n f v) f = some v := by
  unfold getField setField
  by_cases h : (fLookup n.fields f).isSome
  · rw [if_pos h]
    exact fLookup_map_setKey n.fields f v h
  · rw [if_neg h]
    refine fLookup_append_single n.fields f v ?_
    cases hl : fLookup n.fields f with
    | none => rfl
    | some w => rw [hl] at h; simp at h

theorem fLookup_map_setKey_other (l : List (String × String))
    (f g v : String) (h : g ≠ f) :
    fLookup (l.map (fun p => if p.1 = f then (f, v) else p)) g
      = fLookup l g := by
  induction l with
  | nil => rfl
  | cons p t ih =>
    rcases p with ⟨a, b⟩
    dsimp only [List.map]
    by_cases ha : a = f
    · subst ha
      rw [if_pos rfl, fLookup, fLookup, if_neg h]
      rw [if_neg h]
      exact ih
    · rw [if_neg ha, fLookup, fLookup]
      by_cases hg : g = a
      · rw [if_pos hg, if_pos hg]
      · rw [if_neg hg, if_neg hg]
        exact ih

theorem fLookup_append_single_other (l : List (String × String))
    (f g v : String) (h : g ≠ f) :
    fLookup (l ++ [(f, v)]) g = fLookup l g := by
  induction l with
  | nil => simp [fLookup, if_neg h]
  | cons p t ih =>
    rcases p with ⟨a, b⟩
    rw [List.cons_append, fLookup, fLookup]
    by_cases hg : g = a
    · rw [if_pos hg, if_pos hg]
    · rw [if_neg hg, if_neg hg]
      exact ih

theorem getField_setField_other (n : Note) (f g v : String) (h : g ≠ f) :
    getField (setField n f v) g = getField n g := by
  unfold getField setField
  split
  · exact fLookup_map_setKey_other n.fields f g v h
  · exact fLookup_append_single_other n.fields f g v h

theorem tags_setField (n : Note) (f v : String) :
    (setField n f v).tags = n.tags := by
  unfold setField; split <;> rfl

theorem deck_setField (n : Note) (f v : String) :
    (setField n f v).deck = n.deck := by
  unfold setField; split <;> rfl

theorem getField_addTag (n : Note) (t f : String) :
    getField (addTagToNote n t) f = getField n f := by
  unfold getField addTagToNote; split <;> rfl

theorem getField_removeTag (n : Note) (t f : String) :
    getField (removeTagFromNote n t) f = getField n f := rfl

theorem contains_removeTag (n : Note) (t : String) :
    (removeTagFromNote n t).tags.contains t = false := by
  unfold removeTagFromNote
  simp only
  induction n.tags with
  | nil => rfl
  | cons a l ih =>
    by_cases h : a = t
    · subst h
      rw [List.filter_cons_of_neg (by simp)]
      exact ih
    · rw [List.filter_cons_of_pos (by simp [h])]
      simp only [List.contains_cons, show (t == a) = false by simpa using Ne.symm h,
        Bool.false_or]
      exact ih

theorem lookupNote_modifyNote (s : Store) (nid : Nat) (f : Note → Note)
    (m : Nat) :
    lookupNote (modifyNote s nid f) m =
      if m = nid then (lookupNote s m).map f else lookupNote s m := by
  induction s with
  | nil =>
    cases hm : decide (m = nid) with
    | false => simp [modifyNote, lookupNote, of_decide_eq_false hm]
    | true => simp [modifyNote, lookupNote, of_decide_eq_true hm]
  | cons p t ih =>
    rcases p with ⟨k, n⟩
    unfold modifyNote at ih ⊢
    dsimp only [List.map]
    by_cases hk : k = nid
    · rw [if_pos hk]
      by_cases hm : m = k
      · rw [lookupNote, if_pos hm, lookupNote, if_pos hm,
          if_pos (hm.trans hk)]
        rfl
      · rw [lookupNote, if_neg hm, lookupNote, if_neg hm, ih]
    · rw [if_neg hk]
      by_cases hm : m = k
      · rw [lookupNote, if_pos hm, lookupNote, if_pos hm,
          if_neg (fun h => hk ((hm.symm.trans h).symm ▸ rfl))]
      · rw [lookupNote, if_neg hm, lookupNote, if_neg hm, ih]

theorem keys_modifyNote (s : Store) (nid : Nat) (f : Note → Note) :
    keys (modifyNote s nid f) = keys s := by
  unfold keys modifyNote
  rw [List.map_map]
  refine List.map_congr_left ?_
  intro p _
  by_cases hk : p.1 = nid
  · simp [hk]
  · simp [hk]

theorem keys_setNoteField (s : Store) (nid : Nat) (f v : String) :
    keys (setNoteField s nid f v) = keys s :=
  keys_modifyNote s nid _

theorem keys_rollback_note (wora : WOracle) (field : String) (s : Store)
    (nid : Nat) : keys (rollback_note wora field s nid).1 = keys s := by
  unfold rollback_note
  split
  · rfl
  · split
    · rfl
    · split
      · rfl
      · split
        · rfl
        · split
          · exact keys_setNoteField s nid field _
          · rw [keys_modifyNote, keys_setNoteField]

theorem keys_rollbackLoop (wora : WOracle) (field : String)
    (l : List Nat) : ∀ s : Store,
    keys (rollbackLoop wora field s l).1 = keys s := by
  induction l with
  | nil => intro s; rfl
  | cons nid rest ih =>
    intro s
    simp only [rollbackLoop]
    split
    · rw [ih, keys_rollback_note]
    · rw [ih, keys_rollback_note]

theorem rollback_note_frame (wora : WOracle) (field : String) (s : Store)
    (nid m : Nat) (h : m ≠ nid) :
    lookupNote (rollback_note wora field s nid).1 m = lookupNote s m := by
  unfold rollback_note
  split
  · rfl
  · split
    · rfl
    · split
      · rfl
      · split
        · rfl
        · split
          · rw [setNoteField, lookupNote_modifyNote, if_neg h]
          · rw [lookupNote_modifyNote, if_neg h, setNoteField,
              lookupNote_modifyNote, if_neg h]

theorem rollbackLoop_frame (wora : WOracle) (field : String)
    (l : List Nat) : ∀ s : Store, ∀ m : Nat, m ∉ l →
    lookupNote (rollbackLoop wora field s l).1 m = lookupNote s m := by
  induction l with
  | nil => intro s m _; rfl
  | cons nid rest ih =>
    intro s m hm
    have hne : m ≠ nid := fun h => hm (h ▸ List.mem_cons_self nid rest)
    have hrest : m ∉ rest := fun h => hm (List.mem_cons_of_mem nid h)
    simp only [rollbackLoop]
    split
    · rw [ih _ m hrest, rollback_note_frame _ _ _ _ _ hne]
    · rw [ih _ m hrest, rollback_note_frame _ _ _ _ _ hne]

theorem rollback_note_lookup_self (wora : WOracle) (field : String)
    (s : Store) (nid : Nat) :
    lookupNote (rollback_note wora field s nid).1 nid =
      rbTransform wora field nid (lookupNote s nid) := by
  unfold rollback_note rbTransform
  cases hl : lookupNote s nid with
  | none => dsimp only; exact hl
  | some n =>
    dsimp only
    cases hb : getField n (field ++ "_Original") with
    | none => dsimp only; exact hl
    | some bv =>
      dsimp only
      by_cases hbv : bv == ""
      · rw [if_pos hbv, if_pos hbv]; exact hl
      · rw [if_neg hbv, if_neg hbv]
        cases hr : wora nid WStep.restoreW with
        | false =>
          simp only [Bool.not_false]
          simp only [if_pos]
          exact hl
        | true =>
          simp only [Bool.not_true, Bool.false_eq_true, if_false]
          cases hu : wora nid WStep.untagW with
          | false =>
            simp [setNoteField, lookupNote_modifyNote, hl]
          | true =>
            simp [setNoteField, lookupNote_modifyNote, hl]

theorem rollbackLoop_lookup_self (wora : WOracle) (field : String)
    (l : List Nat) : ∀ s : Store, ∀ m : Nat, l.Nodup → m ∈ l →
    lookupNote (rollbackLoop wora field s l).1 m =
      rbTransform wora field m (lookupNote s m) := by
  induction l with
  | nil => intro s m _ hm; simp at hm
  | cons nid rest ih =>
    intro s m hnd hm
    have hndr := (List.nodup_cons.mp hnd).2
    have hnin := (List.nodup_cons.mp hnd).1
    simp only [rollbackLoop]
    rcases List.mem_cons.mp hm with hm1 | hm2
    · subst hm1
      split
      · rw [rollbackLoop_frame _ _ _ _ m hnin, rollback_note_lookup_self]
      · rw [rollbackLoop_frame _ _ _ _ m hnin, rollback_note_lookup_self]
    · have hne : m ≠ nid := fun h => hnin (h ▸ hm2)
      split
      · rw [ih _ m hndr hm2, rollback_note_frame _ _ _ _ _ hne]
      · rw [ih _ m hndr hm2, rollback_note_frame _ _ _ _ _ hne]

theorem rollback_note_of_continue (wora : WOracle) (field : String)
    (s : Store) (nid : Nat) (h : rbContinue field s nid = true) :
    rollback_note wora field s nid = (s, false) := by
  unfold rbContinue at h
  unfold rollback_note
  cases hl : lookupNote s nid with
  | none => rfl
  | some n =>
    rw [hl] at h
    dsimp only at h ⊢
    cases hb : getField n (field ++ "_Original") with
    | none => rfl
    | some bv =>
      rw [hb] at h
      dsimp only at h ⊢
      rw [if_pos h]

theorem rollbackLoop_of_continueAll (wora : WOracle) (field : String)
    (l : List Nat) (s : Store)
    (h : ∀ m ∈ l, rbContinue field s m = true) :
    rollbackLoop wora field s l = (s, 0, 0) := by
  induction l with
  | nil => rfl
  | cons nid rest ih =>
    simp only [rollbackLoop]
    rw [rollback_note_of_continue wora field s nid
      (h nid (List.mem_cons_self nid rest))]
    simp only [ih (fun m hm => h m (List.mem_cons_of_mem nid hm)),
      Bool.false_eq_true, if_false]

theorem runQuery_subset_keys (s : Store) (q : NoteQuery) :
    ∀ x ∈ runQuery s q, x ∈ keys s := by
  intro x hx
  unfold runQuery at hx
  rcases List.mem_map.mp hx with ⟨p, hp, hpx⟩
  exact hpx ▸ List.mem_map.mpr ⟨p, (List.mem_filter.mp hp).1, rfl⟩

theorem runQuery_nodup (s : Store) (q : NoteQuery) (h : keysNodup s) :
    (runQuery s q).Nodup := by
  unfold runQuery
  exact ((List.filter_sublist s).map Prod.fst).nodup h

theorem mem_runQuery (q : NoteQuery) (nid : Nat) :
    ∀ s : Store, keysNodup s →
    (nid ∈ runQuery s q ↔
      ∃ n, lookupNote s nid = some n ∧ matchesQ q n = true) := by
  intro s
  induction s with
  | nil =>
    intro _
    constructor
    · intro h; simp [runQuery] at h
    · rintro ⟨n, hn, _⟩; simp [lookupNote] at hn
  | cons p t ih =>
    intro hnd
    rcases p with ⟨k, m⟩
    have hknt : k ∉ keys t := by
      have := (List.nodup_cons.mp hnd).1
      simpa [keys] using this
    have hndt : keysNodup t := (List.nodup_cons.mp hnd).2
    unfold runQuery
    by_cases hq : matchesQ q m
    · rw [List.filter_cons_of_pos (by simpa using hq)]
      dsimp only [List.map]
      by_cases hk : nid = k
      · subst hk
        constructor
        · intro _
          exact ⟨m, by rw [lookupNote, if_pos rfl], hq⟩
        · intro _
          exact List.mem_cons_self _ _
      · constructor
        · intro hmem
          rcases List.mem_cons.mp hmem with h1 | h2
          · exact absurd h1 hk
          · rcases (ih hndt).mp h2 with ⟨n, hn, hmat⟩
            exact ⟨n, by rw [lookupNote, if_neg hk]; exact hn, hmat⟩
        · rintro ⟨n, hn, hmat⟩
          rw [lookupNote, if_neg hk] at hn
          exact List.mem_cons_of_mem _ ((ih hndt).mpr ⟨n, hn, hmat⟩)
    · rw [List.filter_cons_of_neg (by simpa using hq)]
      by_cases hk : nid = k
      · subst hk
        constructor
        · intro hmem
          exact absurd (runQuery_subset_keys t q nid hmem) hknt
        · rintro ⟨n, hn, hmat⟩
          rw [lookupNote, if_pos rfl] at hn
          have hnm : m = n := Option.some.inj hn
          rw [← hnm] at hmat
          exact absurd hmat (by simpa using hq)
      · constructor
        · intro hmem
          rcases (ih hndt).mp hmem with ⟨n, hn, hmat⟩
          exact ⟨n, by rw [lookupNote, if_neg hk]; exact hn, hmat⟩
        · rintro ⟨n, hn, hmat⟩
          rw [lookupNote, if_neg hk] at hn
          exact (ih hndt).mpr ⟨n, hn, hmat⟩

theorem matchesQ_rollback_iff (deck bfield : String) (n : Note) :
    matchesQ (NoteQuery.rollbackQ deck bfield) n = true ↔
      (n.deck == deck) = true ∧ n.tags.contains markerTag = true ∧
        (getField n bfield).isSome = true := by
  simp [matchesQ, Bool.and_eq_true, and_assoc]

/-- C7: rollback is idempotent.  If the per-note restore and untag
operations of a first `rollback_compacted` call all succeed (the notes
matching the rollback query are granted both remote writes), an
immediately following `rollback_compacted` on the same deck and field
returns `{restored: 0, untagged: 0}`: every note the first pass actually
processed lost the marker tag required by the rollback candidate query,
and notes the first pass passed over (empty backup value) are passed over
again without counting. -/
theorem c7_rollback_idempotent (wora wora2 : WOracle) (s : Store)
    (deck field : String) (hnd : keysNodup s)
    (hok : ∀ nid ∈ runQuery s (NoteQuery.rollbackQ deck (field ++ "_Original")),
      wora nid WStep.restoreW = true ∧ wora nid WStep.untagW = true) :
    (rollback_compacted wora2 (rollback_compacted wora s deck field).2
        deck field).1 = ⟨0, 0⟩ := by
  by_cases hE :
      (runQuery s (NoteQuery.rollbackQ deck (field ++ "_Original"))).isEmpty
  · have h1 : (rollback_compacted wora s deck field).2 = s := by
      unfold rollback_compacted
      rw [if_pos hE]
    rw [h1]
    unfold rollback_compacted
    rw [if_pos hE]
  · have h1 : (rollback_compacted wora s deck field).2 =
        (rollbackLoop wora field s
          (runQuery s (NoteQuery.rollbackQ deck (field ++ "_Original")))).1 := by
      unfold rollback_compacted
      rw [if_neg hE]
    rw [h1]
    have hkeys : keys (rollbackLoop wora field s
        (runQuery s (NoteQuery.rollbackQ deck (field ++ "_Original")))).1
          = keys s :=
      keys_rollbackLoop wora field _ s
    have hnd1 : keysNodup (rollbackLoop wora field s
        (runQuery s (NoteQuery.rollbackQ deck (field ++ "_Original")))).1 := by
      unfold keysNodup
      rw [hkeys]
      exact hnd
    have hcnd : (runQuery s (NoteQuery.rollbackQ deck
        (field ++ "_Original"))).Nodup :=
      runQuery_nodup s _ hnd
    have hcont : ∀ m ∈ runQuery (rollbackLoop wora field s
        (runQuery s (NoteQuery.rollbackQ deck (field ++ "_Original")))).1
          (NoteQuery.rollbackQ deck (field ++ "_Original")),
        rbContinue field (rollbackLoop wora field s
          (runQuery s (NoteQuery.rollbackQ deck (field ++ "_Original")))).1
            m = true := by
      intro m hm
      rcases (mem_runQuery _ m _ hnd1).mp hm with ⟨n', hn', hmat⟩
      by_cases hc : m ∈ runQuery s (NoteQuery.rollbackQ deck
          (field ++ "_Original"))
      · rcases (mem_runQuery _ m s hnd).mp hc with ⟨n, hn, hmatn⟩
        have htr := rollbackLoop_lookup_self wora field _ s m hcnd hc
        rw [hn] at htr
        obtain ⟨bv, hbv⟩ := Option.isSome_iff_exists.mp
          ((matchesQ_rollback_iff _ _ n).mp hmatn).2.2
        by_cases hbe : bv == ""
        · unfold rbTransform at htr
          dsimp only at htr
          rw [hbv] at htr
          dsimp only at htr
          simp only [if_pos hbe] at htr
          unfold rbContinue
          rw [htr]
          dsimp only
          rw [hbv]
          exact hbe
        · rcases hok m hc with ⟨hrw, huw⟩
          unfold rbTransform at htr
          dsimp only at htr
          rw [hbv] at htr
          dsimp only at htr
          simp only [if_neg hbe, hrw, huw, Bool.not_true,
            Bool.false_eq_true, if_false] at htr
          have hnn : n' = removeTagFromNote (setField n field bv) markerTag :=
            Option.some.inj (hn' ▸ htr :
              (some n' : Option Note) = some (removeTagFromNote
                (setField n field bv) markerTag))
          have htag := ((matchesQ_rollback_iff _ _ n').mp hmat).2.1
          rw [hnn, contains_removeTag] at htag
          exact absurd htag (by simp)
      · have hfr := rollbackLoop_frame wora field _ s m hc
        rw [hfr] at hn'
        exact absurd ((mem_runQuery _ m s hnd).mpr ⟨n', hn', hmat⟩) hc
    unfold rollback_compacted
    by_cases hE2 : (runQuery (rollbackLoop wora field s
        (runQuery s (NoteQuery.rollbackQ deck (field ++ "_Original")))).1
          (NoteQuery.rollbackQ deck (field ++ "_Original"))).isEmpty
    · rw [if_pos hE2]
    · rw [if_neg hE2]
      rw [rollbackLoop_of_continueAll wora2 field _ _ hcont]

theorem bfield_ne (f : String) : f ++ "_Original" ≠ f := by
  intro h
  have hlen := congrArg String.length h
  rw [String.length_append] at hlen
  have h9 : String.length "_Original" = 9 := rfl
  omega

theorem backup_field_fail (wora : WOracle) (s : Store) (nid : Nat)
    (field bfield : String)
    (h : (backup_field wora s nid field bfield).1 = false) :
    (backup_field wora s nid field bfield).2 = s := by
  unfold backup_field at h ⊢
  cases hl : lookupNote s nid with
  | none => rfl
  | some n =>
    rw [hl] at h
    dsimp only at h ⊢
    cases hf : getField n field with
    | none => rfl
    | some v =>
      rw [hf] at h
      dsimp only at h ⊢
      by_cases hv : v == ""
      · rw [if_pos hv]
      · rw [if_neg hv] at h ⊢
        cases hw : wora nid WStep.backupW with
        | false => simp [hw]
        | true => simp [hw] at h

theorem backup_field_success (wora : WOracle) (s : Store) (nid : Nat)
    (field bfield : String)
    (h : (backup_field wora s nid field bfield).1 = true) :
    ∃ n v, lookupNote s nid = some n ∧ getField n field = some v ∧
      (v == "") = false ∧ wora nid WStep.backupW = true ∧
      (backup_field wora s nid field bfield).2 =
        setNoteField s nid bfield v := by
  unfold backup_field at h ⊢
  cases hl : lookupNote s nid with
  | none => rw [hl] at h; simp at h
  | some n =>
    rw [hl] at h
    dsimp only at h ⊢
    cases hf : getField n field with
    | none => rw [hf] at h; simp at h
    | some v =>
      rw [hf] at h
      dsimp only at h ⊢
      by_cases hv : v == ""
      · rw [if_pos hv] at h; simp at h
      · rw [if_neg hv] at h ⊢
        cases hw : wora nid WStep.backupW with
        | false => simp [hw] at h
        | true => exact ⟨n, v, rfl, hf, by simpa using hv, rfl, by simp⟩

theorem applyEdit_success (wora : WOracle) (field : String) (s : Store)
    (d : PreviewDiff) (h : (applyEdit wora field s d).2 = true) :
    ∃ n v, lookupNote s d.note_id = some n ∧ getField n field = some v ∧
      (v == "") = false ∧
      (applyEdit wora field s d).1 =
        modifyNote (setNoteField (setNoteField s d.note_id
            (field ++ "_Original") v) d.note_id field d.new)
          d.note_id (fun m => addTagToNote m markerTag) := by
  have hb : (backup_field wora s d.note_id field
      (field ++ "_Original")).1 = true := by
    cases hb2 : (backup_field wora s d.note_id field
        (field ++ "_Original")).1 with
    | true => rfl
    | false => simp [applyEdit, hb2] at h
  obtain ⟨n, v, hl, hf, hv, _, hs⟩ :=
    backup_field_success wora s d.note_id field (field ++ "_Original") hb
  have hcw : wora d.note_id WStep.contentW = true := by
    cases hc2 : wora d.note_id WStep.contentW with
    | true => rfl
    | false => simp [applyEdit, hb, hc2] at h
  have htw : wora d.note_id WStep.tagW = true := by
    cases ht2 : wora d.note_id WStep.tagW with
    | true => rfl
    | false => simp [applyEdit, hb, hcw, ht2] at h
  refine ⟨n, v, hl, hf, hv, ?_⟩
  simp only [applyEdit, hb, hcw, htw, Bool.not_true, Bool.false_eq_true,
    if_false]
  rw [hs]

theorem rollback_note_success (wora : WOracle) (field : String) (s : Store)
    (nid : Nat) (h : (rollback_note wora field s nid).2 = true) :
    ∃ n bv, lookupNote s nid = some n ∧
      getField n (field ++ "_Original") = some bv ∧ (bv == "") = false ∧
      (rollback_note wora field s nid).1 =
        modifyNote (setNoteField s nid field bv) nid
          (fun m => removeTagFromNote m markerTag) := by
  unfold rollback_note at h ⊢
  cases hl : lookupNote s nid with
  | none => rw [hl] at h; simp at h
  | some n =>
    rw [hl] at h
    dsimp only at h ⊢
    cases hb : getField n (field ++ "_Original") with
    | none => rw [hb] at h; simp at h
    | some bv =>
      rw [hb] at h
      dsimp only at h ⊢
      by_cases hbe : bv == ""
      · rw [if_pos hbe] at h; simp at h
      · rw [if_neg hbe] at h ⊢
        cases hr : wora nid WStep.restoreW with
        | false => simp [hr] at h
        | true =>
          cases hu : wora nid WStep.untagW with
          | false => simp [hr, hu] at h
          | true =>
            refine ⟨n, bv, rfl, hb, by simpa using hbe, ?_⟩
            simp [hr, hu]

/-- C6: round-trip.  A note whose edit is applied successfully by the
per-edit step of `apply_compaction` (backup written, new content written,
marker tag added) and then restored successfully by the per-note step of
`rollback_compacted` ends with its primary field byte-for-byte equal to
its pre-compaction value. -/
theorem c6_roundtrip (wora wora2 : WOracle) (field : String) (s : Store)
    (d : PreviewDiff) (h1 : (applyEdit wora field s d).2 = true)
    (h2 : (rollback_note wora2 field (applyEdit wora field s d).1
      d.note_id).2 = true) :
    getNoteField (rollback_note wora2 field (applyEdit wora field s d).1
        d.note_id).1 d.note_id field
      = getNoteField s d.note_id field := by
  obtain ⟨n, v, hl, hf, hv, hres⟩ := applyEdit_success wora field s d h1
  have hlook1 : lookupNote (applyEdit wora field s d).1 d.note_id =
      some (addTagToNote (setField (setField n (field ++ "_Original") v)
        field d.new) markerTag) := by
    rw [hres, lookupNote_modifyNote, if_pos rfl, setNoteField,
      lookupNote_modifyNote, if_pos rfl, setNoteField,
      lookupNote_modifyNote, if_pos rfl, hl]
    rfl
  obtain ⟨n3, bv, hl3, hb3, hbv3, hres2⟩ :=
    rollback_note_success wora2 field _ d.note_id h2
  have hn3 : n3 = addTagToNote (setField (setField n (field ++ "_Original")
      v) field d.new) markerTag :=
    Option.some.inj (hl3.symm.trans hlook1)
  have hbvv : bv = v := by
    rw [hn3, getField_addTag,
      getField_setField_other _ _ _ _ (bfield_ne field),
      getField_setField_self] at hb3
    exact (Option.some.inj hb3).symm
  have hlookA : lookupNote (rollback_note wora2 field
      (applyEdit wora field s d).1 d.note_id).1 d.note_id =
        some (removeTagFromNote (setField n3 field bv) markerTag) := by
    rw [hres2, lookupNote_modifyNote, if_pos rfl, setNoteField,
      lookupNote_modifyNote, if_pos rfl, hl3]
    rfl
  unfold getNoteField
  rw [hlookA, hl]
  dsimp only [Option.bind]
  rw [getField_removeTag, getField_setField_self, hbvv, hf]

theorem applyEdit_backup_fail (wora : WOracle) (field : String) (s : Store)
    (d : PreviewDiff)
    (hb : (backup_field wora s d.note_id field
      (field ++ "_Original")).1 = false) :
    applyEdit wora field s d = (s, false) := by
  simp [applyEdit, hb, backup_field_fail wora s d.note_id field
    (field ++ "_Original") hb]

/-- C1: apply is at-most-once per token.  An apply call with an unknown
token fails with the token error and leaves the registry and the note
store untouched; an apply call with a known token returns a summary,
removes the token unconditionally once the per-edit loop completes, and a
second apply of the same token fails with the token error while changing
neither the registry nor the note store. -/
theorem c1_apply_at_most_once (wora wora2 : WOracle) (tokens : TokenStore)
    (s : Store) (tok : String) :
    (lookupTok tokens tok = none →
      apply_compaction wora tokens s tok =
        (Except.error "Invalid confirmation token", tokens, s)) ∧
    (∀ td, lookupTok tokens tok = some td →
      (∃ sum, (apply_compaction wora tokens s tok).1 = Except.ok sum) ∧
      lookupTok (apply_compaction wora tokens s tok).2.1 tok = none ∧
      apply_compaction wora2 (apply_compaction wora tokens s tok).2.1
          (apply_compaction wora tokens s tok).2.2 tok =
        (Except.error "Invalid confirmation token",
          (apply_compaction wora tokens s tok).2.1,
          (apply_compaction wora tokens s tok).2.2)) := by
  constructor
  · intro h
    unfold apply_compaction
    rw [h]
  · intro td h
    have he : apply_compaction wora tokens s tok =
        (Except.ok ⟨(applyLoop wora td.field s td.diffs).2.1,
          (applyLoop wora td.field s td.diffs).2.2.1,
          (applyLoop wora td.field s td.diffs).2.2.2⟩,
         removeToken tokens tok,
         (applyLoop wora td.field s td.diffs).1) := by
      unfold apply_compaction
      rw [h]
    refine ⟨⟨_, by rw [he]⟩, ?_, ?_⟩
    · rw [he]
      exact lookupTok_removeToken tokens tok
    · rw [he]
      dsimp only
      unfold apply_compaction
      rw [lookupTok_removeToken tokens tok]

/-- C4: every successful apply returns a summary with
`updated + skipped` equal to the number of edits of the redeemed batch:
each edit of the per-edit loop contributes exactly one to `updated` or
exactly one to `skipped`. -/
theorem c4_apply_counts (wora : WOracle) (tokens : TokenStore) (s : Store)
    (tok : String) (td : TokenData) (h : lookupTok tokens tok = some td) :
    ∃ sum, (apply_compaction wora tokens s tok).1 = Except.ok sum ∧
      sum.updated + sum.skipped = td.diffs.length := by
  unfold apply_compaction
  rw [h]
  exact ⟨_, rfl, (applyLoop_counts wora td.field td.diffs s).1⟩

/-- C10: every successful apply returns a summary with
`tagged == updated`: the loop increments both counters together exactly
when backup, content write and tag write all succeed, and neither
otherwise (a failed tag write after a successful content write raises and
the note counts only as skipped). -/
theorem c10_tagged_eq_updated (wora : WOracle) (tokens : TokenStore)
    (s : Store) (tok : String) (td : TokenData)
    (h : lookupTok tokens tok = some td) :
    ∃ sum, (apply_compaction wora tokens s tok).1 = Except.ok sum ∧
      sum.tagged = sum.updated := by
  unfold apply_compaction
  rw [h]
  exact ⟨_, rfl, (applyLoop_counts wora td.field td.diffs s).2⟩

/-- C2: backup-before-overwrite.  When the backup step of an edit fails
(note missing, source field empty or unreadable, or the backup write
errors), the edit leaves the store untouched and counts as skipped (in
particular its primary field is never overwritten); and whenever an edit
does change the primary field, the backup field afterwards holds the
pre-mutation value of the primary field. -/
theorem c2_backup_before_overwrite (wora : WOracle) (field : String)
    (s : Store) (d : PreviewDiff) :
    ((backup_field wora s d.note_id field (field ++ "_Original")).1 = false →
      applyEdit wora field s d = (s, false)) ∧
    (getNoteField (applyEdit wora field s d).1 d.note_id field ≠
        getNoteField s d.note_id field →
      getNoteField (applyEdit wora field s d).1 d.note_id
          (field ++ "_Original") = getNoteField s d.note_id field) := by
  constructor
  · intro hb
    exact applyEdit_backup_fail wora field s d hb
  · intro hch
    by_cases hb : (backup_field wora s d.note_id field
        (field ++ "_Original")).1 = true
    · obtain ⟨n, v, hl, hf, hv, _, hs⟩ :=
        backup_field_success wora s d.note_id field (field ++ "_Original") hb
      have hrhs : getNoteField s d.note_id field = some v := by
        unfold getNoteField
        rw [hl]
        exact hf
      cases hc : wora d.note_id WStep.contentW with
      | false =>
        have hres : (applyEdit wora field s d).1 =
            (backup_field wora s d.note_id field (field ++ "_Original")).2 := by
          simp [applyEdit, hb, hc]
        rw [hres, hs] at hch
        have heq : getNoteField (setNoteField s d.note_id
            (field ++ "_Original") v) d.note_id field =
              getNoteField s d.note_id field := by
          unfold getNoteField setNoteField
          rw [lookupNote_modifyNote, if_pos rfl, hl]
          dsimp only [Option.map, Option.bind]
          rw [getField_setField_other _ _ _ _ (Ne.symm (bfield_ne field))]
        exact absurd heq hch
      | true =>
        cases ht : wora d.note_id WStep.tagW with
        | false =>
          have hres : (applyEdit wora field s d).1 =
              setNoteField (backup_field wora s d.note_id field
                (field ++ "_Original")).2 d.note_id field d.new := by
            simp [applyEdit, hb, hc, ht]
          rw [hres, hs]
          unfold getNoteField
          rw [setNoteField, lookupNote_modifyNote, if_pos rfl, setNoteField,
            lookupNote_modifyNote, if_pos rfl, hl]
          dsimp only [Option.map, Option.bind]
          rw [getField_setField_other _ _ _ _ (bfield_ne field),
            getField_setField_self]
          exact hf.symm
        | true =>
          have hflag : (applyEdit wora field s d).2 = true := by
            simp [applyEdit, hb, hc, ht]
          obtain ⟨n2, v2, hl2, hf2, hv2, hres⟩ :=
            applyEdit_success wora field s d hflag
          have hrhs2 : getNoteField s d.note_id field = some v2 := by
            unfold getNoteField
            rw [hl2]
            exact hf2
          rw [hres]
          unfold getNoteField
          rw [lookupNote_modifyNote, if_pos rfl, setNoteField,
            lookupNote_modifyNote, if_pos rfl, setNoteField,
            lookupNote_modifyNote, if_pos rfl, hl2]
          dsimp only [Option.map, Option.bind]
          rw [getField_addTag, getField_setField_other _ _ _ _
            (bfield_ne field), getField_setField_self]
          exact hf2.symm
    · have hbf : (backup_field wora s d.note_id field
          (field ++ "_Original")).1 = false := by
        revert hb
        cases (backup_field wora s d.note_id field (field ++ "_Original")).1
          <;> simp
      rw [applyEdit_backup_fail wora field s d hbf] at hch
      exact absurd rfl hch

/-- C5: preview never mutates the remote note store.  For every scope,
field, preview count, limit, either value of dry_run and any transformer
behavior, the trace of remote-store actions performed by
`compact_examples` contains only reads, and replaying the trace over any
store returns it unchanged (so any number of repeated invocations leaves
every note's fields and tags intact). -/
theorem c5_preview_never_mutates (tora : TOracle) (s : Store)
    (tokens : TokenStore) (deck field : String) (preview_count limit : Nat)
    (dry_run : Bool) (freshTok : String) :
    ((compact_examples tora s tokens deck field preview_count limit dry_run
        freshTok).2.2.all (fun a => !a.isWrite)) = true ∧
    (compact_examples tora s tokens deck field preview_count limit dry_run
        freshTok).2.2.foldl applyAction s = s := by
  simp only [compact_examples]
  split
  · exact ⟨rfl, rfl⟩
  · split
    · exact ⟨rfl, rfl⟩
    · exact ⟨rfl, rfl⟩

/-- C3 (refutation evidence): the `/ops/compact/apply` endpoint builds a
fresh `LogicService` through its per-request dependency, whose
`confirm_tokens` dict starts empty, so the apply call fails with the token
error for every token and every store state — no token minted by a
preview in an earlier request is ever redeemable. -/
theorem c3_apply_endpoint_always_token_error (wora : WOracle) (s : Store)
    (tok : String) :
    ops_compact_apply wora s tok =
      (Except.error "Invalid confirmation token", s) := rfl

theorem cms_results (tora : TOracle) (rl : Nat) :
    ∀ data : List SentenceData,
    (compact_multiple_sentences tora rl data).1 =
      data.map (fun d =>
        match (compact_sentence tora d.target d.sentence).1 with
        | some c => ⟨d.note_id, d.target, d.sentence, some c, true⟩
        | none => ⟨d.note_id, d.target, d.sentence, none, false⟩) := by
  intro data
  induction data with
  | nil => rfl
  | cons d rest ih =>
    simp only [compact_multiple_sentences, List.map]
    cases hc : (compact_sentence tora d.target d.sentence).1 with
    | some c =>
      dsimp only
      rw [ih]
    | none =>
      dsimp only
      rw [ih]

theorem compact_sentence_calls (tora : TOracle) (target sentence : String) :
    (compact_sentence tora target sentence).2.length =
      cond (containsCI target (tora target sentence 0)) 1 2 := by
  unfold compact_sentence
  by_cases h1 : containsCI target (tora target sentence 0)
  · simp [h1]
  · by_cases h2 : containsCI target (tora target sentence 1) <;>
      simp [h1, h2]

theorem compact_sentence_none_iff (tora : TOracle) (target sentence : String) :
    (compact_sentence tora target sentence).1.isNone =
      (!containsCI target (tora target sentence 0) &&
       !containsCI target (tora target sentence 1)) := by
  unfold compact_sentence
  by_cases h1 : containsCI target (tora target sentence 0)
  · simp [h1]
  · by_cases h2 : containsCI target (tora target sentence 1) <;>
      simp [h1, h2]

/-- C8: the rewrite of a candidate sentence performs exactly one retry
when the first transformer result fails the case-insensitive headword
containment check (one call when the first result passes, two calls
otherwise, never more); the rewrite fails exactly when both results lack
the headword; and every diff surfaced by `compact_examples` stems from a
rewrite one of whose two results contained the headword — a note whose
rewrite failed is simply absent from the results rather than reported as
an error. -/
theorem c8_retry_once_and_exclusion (tora : TOracle) :
    (∀ target sentence : String,
      (compact_sentence tora target sentence).2.length =
        cond (containsCI target (tora target sentence 0)) 1 2 ∧
      (compact_sentence tora target sentence).1.isNone =
        (!containsCI target (tora target sentence 0) &&
         !containsCI target (tora target sentence 1))) ∧
    (∀ (s : Store) (tokens : TokenStore) (deck field : String)
        (preview_count limit : Nat) (dry_run : Bool) (freshTok : String),
      ((compact_examples tora s tokens deck field preview_count limit
          dry_run freshTok).1.diffs.all (fun dif =>
            containsCI dif.word (tora dif.word dif.old 0) ||
            containsCI dif.word (tora dif.word dif.old 1))) = true) := by
  constructor
  · intro target sentence
    exact ⟨compact_sentence_calls tora target sentence,
      compact_sentence_none_iff tora target sentence⟩
  · intro s tokens deck field preview_count limit dry_run freshTok
    simp only [compact_examples]
    split
    · rfl
    · split
      · rfl
      · rw [List.all_eq_true]
        intro dif hdif
        have hdif2 := List.take_subset _ _ hdif
        rcases List.mem_filterMap.mp hdif2 with ⟨r, hrmem, hkeep⟩
        rw [cms_results tora 250] at hrmem
        rcases List.mem_map.mp hrmem with ⟨d, _, hfd⟩
        cases hc : (compact_sentence tora d.target d.sentence).1 with
        | none =>
          rw [hc] at hfd
          dsimp only at hfd
          rw [← hfd] at hkeep
          simp at hkeep
        | some c =>
          rw [hc] at hfd
          dsimp only at hfd
          rw [← hfd] at hkeep
          rw [if_pos rfl] at hkeep
          have hdifeq : dif = ⟨d.note_id, d.target, d.sentence, c⟩ :=
            (Option.some.inj hkeep).symm
          have hni := compact_sentence_none_iff tora d.target d.sentence
          rw [hc] at hni
          rw [hdifeq]
          dsimp only
          revert hni
          cases hc1 : containsCI d.target (tora d.target d.sentence 0) <;>
            cases hc2 : containsCI d.target (tora d.target d.sentence 1) <;>
              simp

theorem noAdjacentCalls_sleep_cons (rl : Nat) (t : List Ev) :
    noAdjacentCalls (Ev.sleepE rl :: t) = noAdjacentCalls t := by
  cases t with
  | nil => rfl
  | cons a t' => simp [noAdjacentCalls, Ev.isCall]

/-- C9 counterexample: with two candidate sentences whose rewrites all
fail the headword check, the transformer call trace contains adjacent
calls with no delay between them — the retry follows its first attempt
immediately, and the next sentence's call follows a failed sentence with
no sleep, because the sleep statement is skipped when `compact_sentence`
raises. -/
theorem c9_counterexample :
    noAdjacentCalls (compact_multiple_sentences (fun _ _ _ => "zzz") 250
      [⟨1, "cat", "the cat sat"⟩, ⟨2, "dog", "a dog"⟩]).2 = false := by
  decide

/-- C9 (amended): transformer calls are issued strictly one at a time, and
when every candidate's first rewrite passes the headword check, an
enforced delay separates every pair of consecutive transformer calls in
the batch; the delay is skipped only before a retry and after a failed
candidate. -/
theorem c9_amended_paced_when_first_attempts_pass (tora : TOracle)
    (rl : Nat) (data : List SentenceData)
    (h : data.all
      (fun d => containsCI d.target (tora d.target d.sentence 0)) = true) :
    noAdjacentCalls (compact_multiple_sentences tora rl data).2 = true := by
  induction data with
  | nil => rfl
  | cons d rest ih =>
    rw [List.all_cons, Bool.and_eq_true] at h
    obtain ⟨h1, h2⟩ := h
    simp only [compact_multiple_sentences]
    have hcs : compact_sentence tora d.target d.sentence =
        (some (tora d.target d.sentence 0),
          [Ev.callE d.target d.sentence 0]) := by
      unfold compact_sentence
      rw [if_pos h1]
    rw [hcs]
    cases rest with
    | nil => rfl
    | cons e rest' =>
      have ht := ih h2
      dsimp only
      simp only [List.isEmpty_cons, Bool.false_eq_true, if_false,
        List.cons_append, List.nil_append]
      have hstep : noAdjacentCalls (Ev.callE d.target d.sentence 0 ::
          Ev.sleepE rl ::
            (compact_multiple_sentences tora rl (e :: rest')).2) =
          noAdjacentCalls (Ev.sleepE rl ::
            (compact_multiple_sentences tora rl (e :: rest')).2) := rfl
      rw [hstep, noAdjacentCalls_sleep_cons]
      exact ht

/-- Witness for C1: a concrete one-token registry and one-note store; the
first apply succeeds, removes the token, and the second apply fails with
the token error changing nothing. -/
theorem c1_witness :
    (∃ sum, (apply_compaction allOK [("t", sampleTd)] sampleStore "t").1 =
      Except.ok sum) ∧
    lookupTok (apply_compaction allOK [("t", sampleTd)] sampleStore
        "t").2.1 "t" = none ∧
    apply_compaction allOK
        (apply_compaction allOK [("t", sampleTd)] sampleStore "t").2.1
        (apply_compaction allOK [("t", sampleTd)] sampleStore "t").2.2 "t" =
      (Except.error "Invalid confirmation token",
        (apply_compaction allOK [("t", sampleTd)] sampleStore "t").2.1,
        (apply_compaction allOK [("t", sampleTd)] sampleStore "t").2.2) :=
  (c1_apply_at_most_once allOK allOK [("t", sampleTd)] sampleStore "t").2
    sampleTd (by decide)

/-- Witness for C2: backing up a note id absent from the store fails, so
the edit leaves the store untouched and counts as skipped. -/
theorem c2_witness :
    applyEdit allOK "Example" sampleStore sampleDiffMissing =
      (sampleStore, false) :=
  (c2_backup_before_overwrite allOK "Example" sampleStore
    sampleDiffMissing).1 (by decide)

/-- Witness for C4 at the concrete one-edit batch. -/
theorem c4_witness :
    ∃ sum, (apply_compaction allOK [("t", sampleTd)] sampleStore "t").1 =
      Except.ok sum ∧ sum.updated + sum.skipped = sampleTd.diffs.length :=
  c4_apply_counts allOK [("t", sampleTd)] sampleStore "t" sampleTd
    (by decide)

/-- Witness for C10 at the concrete one-edit batch. -/
theorem c10_witness :
    ∃ sum, (apply_compaction allOK [("t", sampleTd)] sampleStore "t").1 =
      Except.ok sum ∧ sum.tagged = sum.updated :=
  c10_tagged_eq_updated allOK [("t", sampleTd)] sampleStore "t" sampleTd
    (by decide)

/-- Witness for C6: compacting the sample note and rolling it back
restores the primary field exactly. -/
theorem c6_witness :
    getNoteField (rollback_note allOK "Example"
        (applyEdit allOK "Example" sampleStore sampleDiff).1
        sampleDiff.note_id).1 sampleDiff.note_id "Example"
      = getNoteField sampleStore sampleDiff.note_id "Example" :=
  c6_roundtrip allOK allOK "Example" sampleStore sampleDiff (by decide)
    (by decide)

/-- Witness for C7: rolling back the sample compacted store twice yields
zero counts the second time. -/
theorem c7_witness :
    (rollback_compacted allOK
        (rollback_compacted allOK rbStore "D" "Example").2 "D"
        "Example").1 = ⟨0, 0⟩ :=
  c7_rollback_idempotent allOK allOK rbStore "D" "Example"
    (by unfold keysNodup; decide) (by decide)

/-- Witness for the amended C9: when every first rewrite contains the
headword, the concrete two-sentence batch trace has a delay between the
two calls. -/
theorem c9_witness :
    noAdjacentCalls
      (compact_multiple_sentences echoTarget 250 twoData).2 = true :=
  c9_amended_paced_when_first_attempts_pass echoTarget 250 twoData
    (by decide)

end AnkiAssist
